import Mathlib

/-! Verification of vecro-base: workload stress engine and instrumenting decorator.

A shallow embedding of `stress.go`, `instrumenting.go` and the service assembly of
`main.go`.

Modelling conventions.
* Go `int` is the 64-bit two's-complement integer of the usual platforms: values are
  carried in `Int` and every addition, subtraction and multiplication of the stress
  engine is followed by `wrapInt64`. (`allocMemory` keeps the exact product, see there.)
* `float64` values of the stress engine are the rationals they denote, and every
  floating-point operation is followed by the rounding `float64` (53 significant bits,
  round to nearest, ties to even). The exponent range is not limited: for a float64
  draw in `[0,1)` every intermediate value of `delay` is 0 or has a magnitude between
  `2^-53` and `2^64`, far from underflow and overflow.
* Durations of the decorators are exact: `Seconds()` is the exact quotient.
* Randomness, the wall clock and file-system failures are explicit environment inputs.
* A Go `panic` is an `Except.error` (stress engine) or an `Outcome.panicked` (services).
* The helper `printElapsedTime` (not part of the embedded sources) only prints a timing
  line and is left out.
-/

namespace Vecro

/-! ## stress.go : constants -/

/-- Source: `cpuOpsBase = 16384 * 2`. -/
def cpuOpsBase : Int := 16384 * 2

/-- Source: `ioOpsBase = 64`. -/
def ioOpsBase : Int := 64

/-- Source: `memoryCountBase = 256 * 1024`. -/
def memoryCountBase : Int := 256 * 1024

/-! ## Machine arithmetic -/

/-- Value of a 64-bit signed integer after an operation whose exact result is `x`:
reduction modulo `2^64` into `[-2^63, 2^63)`. -/
def wrapInt64 (x : Int) : Int :=
  (x + 9223372036854775808) % 18446744073709551616 - 9223372036854775808

/-- Rounding of a rational to the nearest integer, ties to the even one. -/
def roundHalfEven (q : ℚ) : Int :=
  let f := Int.floor q
  if q - f < 1 / 2 then f
  else if 1 / 2 < q - f then f + 1
  else if f % 2 = 0 then f else f + 1

/-- Rounding of an exact result to float64: the nearest multiple of
`2 ^ (floor(log2 |x|) - 52)`, ties to even. It is also the conversion `float64(n)` of an
integer. -/
def float64 (x : ℚ) : ℚ :=
  if x = 0 then 0
  else
    let u : ℚ := (2 : ℚ) ^ (Int.log 2 |x| - 52)
    (roundHalfEven (x / u) : ℚ) * u

/-- Go `math.Floor`: the result is again a float64. -/
def math_Floor (x : ℚ) : ℚ := (Int.floor x : ℚ)

/-- Go conversion `int(f)` of a float64: the fraction is discarded (towards zero). The
result of Go for a value outside the 64-bit range depends on the platform and is not
modelled; `delay` stays inside that range for every jitter that is not negative. -/
def int (x : ℚ) : Int := if 0 ≤ x then Int.floor x else Int.ceil x

/-! ## Loops -/

/-- The Go loop `for i := start; i < bound; i++ { s = body(s) }`. The counter cannot
overflow: `i++` is only reached with `i < bound`, and `bound` is a 64-bit integer. -/
def forLoop {σ : Type} (bound : Int) (body : σ → σ) (i : Int) (s : σ) : σ :=
  if i < bound then forLoop bound body (i + 1) (body s) else s
termination_by (bound - i).toNat
decreasing_by omega

/-- The same loop with a body that may panic; a panic leaves the loop at once. -/
def forLoopE {ε σ : Type} (bound : Int) (body : σ → Except ε σ) (i : Int) (s : σ) :
    Except ε σ :=
  if i < bound then
    match body s with
    | .error e => .error e
    | .ok s' => forLoopE bound body (i + 1) s'
  else .ok s
termination_by (bound - i).toNat
decreasing_by omega

/-! ## stress.go : delay -/

/-- What one call of `delay` does: the jitter it drew, the argument of `time.Sleep`
(in milliseconds and as a `time.Duration` in nanoseconds) and the logged figure. -/
structure DelayResult where
  jitter : Int
  sleepMs : Int
  sleepNs : Int
  loggedMs : Int
  deriving DecidableEq, Repr

/-- Source: `delay(delayTime, delayJitter)`; `r` is the value of `rand.Float64()`.
`jitter := math.Floor((r * 2 - 1) * float64(delayJitter))` in float64 arithmetic, then
the process sleeps `time.Millisecond * time.Duration(delayTime + int(jitter))` and logs
`delayTime + int(jitter)`, both in 64-bit integers. (Fusing `r * 2 - 1` into one
operation, which Go permits, gives the same value, since `r * 2` is exact.) -/
def delay (r : ℚ) (delayTime delayJitter : Int) : DelayResult :=
  let jitter : ℚ :=
    math_Floor (float64 (float64 (float64 (r * 2) - 1) * float64 (delayJitter : ℚ)))
  { jitter := int jitter
    sleepMs := wrapInt64 (delayTime + int jitter)
    sleepNs := wrapInt64 (1000000 * wrapInt64 (delayTime + int jitter))
    loggedMs := wrapInt64 (delayTime + int jitter) }

/-! ## stress.go : cpuStress -/

/-- Loop state of `cpuStress`: how many random numbers were drawn and the arguments
handed to `math.Sqrt`, oldest first. -/
structure CpuState where
  draws : Nat
  sqrtArgs : List ℚ

/-- One iteration `math.Sqrt(rand.Float64())`; `rng k` is the `k`-th random draw. -/
def cpuBody (rng : Nat → ℚ) (s : CpuState) : CpuState :=
  { draws := s.draws + 1, sqrtArgs := s.sqrtArgs ++ [rng s.draws] }

/-- Result of `cpuStress`: the square roots taken and the two logged figures. -/
structure CpuResult where
  sqrtArgs : List ℚ
  loggedLoad : Int
  loggedTotal : Int

/-- Source: `cpuStress(cpuLoad)`:
`for i := 0; i < cpuOpsBase * cpuLoad; i++ { math.Sqrt(rand.Float64()) }`
followed by the log line; the product is a 64-bit `int`. -/
def cpuStress (rng : Nat → ℚ) (cpuLoad : Int) : CpuResult :=
  let s := forLoop (wrapInt64 (cpuOpsBase * cpuLoad)) (cpuBody rng) 0
    { draws := 0, sqrtArgs := [] }
  { sqrtArgs := s.sqrtArgs
    loggedLoad := cpuLoad
    loggedTotal := wrapInt64 (cpuOpsBase * cpuLoad) }

/-! ## stress.go : ioStress -/

/-- File operations issued by `ioStress`. `write n` is a `WriteString` that accepted
`n` bytes. -/
inductive IoEvent where
  | create (name : String)
  | write (n : Nat)
  | flush
  | sync
  | close
  | remove (name : String)
  deriving DecidableEq, Repr

/-- Local variables of `ioStress` together with the file operations done so far. -/
structure IoState where
  totalBytes : Int
  currentBytes : Int
  trace : List IoEvent
  deriving DecidableEq, Repr

/-- The environment of `ioStress`: `fails k` tells whether the `k`-th file operation
(counted from 0) returns an error. -/
abbrev IoEnv := Nat → Bool

/-- The environment in which no file operation fails. -/
def noFail : IoEnv := fun _ => false

/-- One file operation followed by `if err != nil { panic(err) }`. -/
def fileOp (env : IoEnv) (ev : IoEvent) (s : IoState) : Except String IoState :=
  if env s.trace.length then .error "file operation failed"
  else .ok { s with trace := s.trace ++ [ev] }

/-- Go `strings.Repeat`. -/
def strings_Repeat (s : String) (count : Nat) : String :=
  String.join (List.replicate count s)

/-- Source: `n, err := w.WriteString(...)` with the panic on error: on success `n` is
the byte length of the string. -/
def WriteString (env : IoEnv) (str : String) (s : IoState) : Except String (Int × IoState) :=
  match fileOp env (.write str.utf8ByteSize) s with
  | .error e => .error e
  | .ok s' => .ok ((str.utf8ByteSize : Int), s')

/-- Body of the write loop of `ioStress`. -/
def ioBody (env : IoEnv) (s : IoState) : Except String IoState :=
  match WriteString env (strings_Repeat "contents" 128) s with
  | .error e => .error e
  | .ok (n, s1) =>
    let s2 : IoState :=
      { s1 with totalBytes := wrapInt64 (s1.totalBytes + n)
                currentBytes := wrapInt64 (s1.currentBytes + n) }
    if s2.currentBytes ≥ 1024 * 512 then
      match fileOp env .flush s2 with
      | .error e => .error e
      | .ok s3 =>
        match fileOp env .sync s3 with
        | .error e => .error e
        | .ok s4 => .ok { s4 with currentBytes := wrapInt64 (s4.currentBytes - 1024 * 512) }
    else .ok s2

/-- The figures of the final log line of `ioStress`. -/
structure IoLog where
  ioLoad : Int
  bytesToWrite : Int
  totalBytesWritten : Int
  deriving DecidableEq, Repr

/-- What a run of `ioStress` that did not panic leaves behind. -/
structure IoResult where
  final : IoState
  log : IoLog
  deriving DecidableEq, Repr

/-- Source: `filename := "/tmp/ben_base_stress_" + strconv.FormatUint(rand.Uint64(), 10)`;
`fileId` is the value of `rand.Uint64()`. -/
def tmpName (fileId : Nat) : String := "/tmp/ben_base_stress_" ++ toString fileId

/-- State of `ioStress` when the write loop is entered: the file has been created and
`totalBytes, currentBytes := 0, 0`. -/
def ioInit (filename : String) : IoState :=
  { totalBytes := 0, currentBytes := 0, trace := [.create filename] }

/-- Source: `ioStress(ioLoad)`; `fileId` is the value of `rand.Uint64()`. The loop bound
`ioOpsBase * ioLoad` is a 64-bit `int`. -/
def ioStress (env : IoEnv) (fileId : Nat) (ioLoad : Int) : Except String IoResult :=
  let filename := tmpName fileId
  match fileOp env (.create filename) { totalBytes := 0, currentBytes := 0, trace := [] } with
  | .error e => .error e
  | .ok s0 =>
    match forLoopE (wrapInt64 (ioOpsBase * ioLoad)) (ioBody env) 0 s0 with
    | .error e => .error e
    | .ok s1 =>
      match fileOp env .flush s1 with
      | .error e => .error e
      | .ok s2 =>
        match fileOp env .sync s2 with
        | .error e => .error e
        | .ok s3 =>
          match fileOp env .close s3 with
          | .error e => .error e
          | .ok s4 =>
            match fileOp env (.remove filename) s4 with
            | .error e => .error e
            | .ok s5 =>
              .ok { final := s5
                    log := { ioLoad := ioLoad
                             bytesToWrite := ioOpsBase * 8 * 128
                             totalBytesWritten := s5.totalBytes } }

/-! ## stress.go : allocMemory -/

/-- The slice built by `allocMemory`: `len` and `cap` count `int64` elements. -/
structure Slab where
  len : Int
  cap : Int
  deriving DecidableEq, Repr

/-- Size of one `int64` element in bytes. -/
def int64Bytes : Int := 8

/-- Bytes in one megabyte, the unit of the argument of `allocMemory` ("Allocate memory
of given size in MB"). -/
def bytesPerMB : Int := 1024 * 1024

/-- Bytes occupied by the elements of a slab. -/
def Slab.bytes (s : Slab) : Int := s.len * int64Bytes

/-- Source: `allocMemory(size)`:
`make([]int64, size * memoryCountBase, size * memoryCountBase)`. The product is kept
exact and `make` is taken to succeed, which is what the code does for
`0 ≤ size < 2^45`; outside that range the product wraps or `make` panics. -/
def allocMemory (size : Int) : Slab :=
  { len := size * memoryCountBase, cap := size * memoryCountBase }

/-! ## Closed forms used to describe the write loop of ioStress -/

/-- File operations of the first `k` iterations of the write loop as the specification
words them: every iteration writes one 1 KiB chunk, and a flush and sync follow exactly
those writes at which the bytes written so far are a multiple of 512 KiB. -/
def loopTraceSpec : Nat → List IoEvent
  | 0 => []
  | k + 1 =>
    loopTraceSpec k ++
      (IoEvent.write 1024 ::
        (if ((k + 1) * 1024) % 524288 = 0 then [IoEvent.flush, IoEvent.sync] else []))

/-- Sizes of the chunks written, in order. -/
def writtenChunks : List IoEvent → List Nat
  | [] => []
  | IoEvent.write n :: rest => n :: writtenChunks rest
  | _ :: rest => writtenChunks rest

/-- One iteration of the write loop when no file operation fails. -/
def ioStep (s : IoState) : IoState :=
  if wrapInt64 (s.currentBytes + 1024) ≥ 1024 * 512 then
    { totalBytes := wrapInt64 (s.totalBytes + 1024)
      currentBytes := wrapInt64 (wrapInt64 (s.currentBytes + 1024) - 1024 * 512)
      trace := s.trace ++ [IoEvent.write 1024, IoEvent.flush, IoEvent.sync] }
  else
    { totalBytes := wrapInt64 (s.totalBytes + 1024)
      currentBytes := wrapInt64 (s.currentBytes + 1024)
      trace := s.trace ++ [IoEvent.write 1024] }

/-! ## instrumenting.go and the service pipeline of main.go -/

/-- A Go `error` value. -/
structure GoError where
  msg : String
  deriving DecidableEq, Repr

/-- How a call of `Execute() (string, error)` ends: it returns its pair, or it panics. -/
inductive Outcome where
  | returned (body : String) (err : Option GoError)
  | panicked (value : String)
  deriving DecidableEq, Repr

/-- One value of a `Log(keyvals...)` call. -/
inductive LogValue where
  | text (s : String)
  | duration (ns : Int)
  deriving DecidableEq, Repr

/-- Metrics and loggers are referred to by handles. -/
abbrev Handle := Nat

/-- Observable effects on the world outside a service. -/
inductive Event where
  | counterAdd (counter : Handle) (delta : ℚ)
  | observe (histogram : Handle) (value : ℚ)
  | log (logger : Handle) (keyvals : List LogValue)
  | call (target : String)
  deriving DecidableEq, Repr

/-- The world a service runs in: the wall clock (`now`, in nanoseconds, and the amounts
by which it will have advanced at each later reading) and the effects so far. -/
structure World where
  now : Int
  ticks : List Nat
  trace : List Event
  deriving DecidableEq, Repr

/-- Go `time.Now()`: the clock has advanced by the next tick. -/
def time_Now (w : World) : Int × World :=
  match w.ticks with
  | [] => (w.now, w)
  | d :: rest => (w.now + d, { w with now := w.now + d, ticks := rest })

/-- Appends an effect to the trace of the world. -/
def emit (e : Event) (w : World) : World :=
  { w with trace := w.trace ++ [e] }

/-- Go `Duration.Seconds()`. -/
def seconds (ns : Int) : ℚ := (ns : ℚ) / 1000000000

/-- Value of a counter: the sum of the deltas added to it. -/
def counterValue (c : Handle) : List Event → ℚ
  | [] => 0
  | Event.counterAdd c' d :: rest =>
    (if c' = c then d else 0) + counterValue c rest
  | _ :: rest => counterValue c rest

/-- Observations recorded into a histogram, oldest first. -/
def observations (h : Handle) : List Event → List ℚ
  | [] => []
  | Event.observe h' v :: rest =>
    if h' = h then v :: observations h rest else observations h rest
  | _ :: rest => observations h rest

/-- Number of downstream calls in a trace. -/
def callCount : List Event → Nat
  | [] => 0
  | Event.call _ :: rest => callCount rest + 1
  | _ :: rest => callCount rest

/-- The implementers of the Go interface `BaseService` (one method, `Execute`):
the service core `baseService`, whose `Execute` is not part of the embedded sources and
is carried as a function, and the two decorators, each holding its fields and the
embedded `BaseService` it wraps. -/
inductive BaseService where
  | baseService (execute : World → Outcome × World)
  | logmw (logger : Handle) (next : BaseService)
  | instrmw (requestCount requestLatency logger : Handle) (next : BaseService)

/-- Source: the deferred closure of `instrmw.Execute`, called with `begin`:
`requestCount.Add(1)`, `requestLatency.Observe(time.Since(begin).Seconds())`,
`logger.Log("request_latency:", time.Since(begin))`. -/
def instrmw_deferred (requestCount requestLatency logger : Handle) (begin : Int)
    (w : World) : World :=
  let w1 := emit (Event.counterAdd requestCount 1) w
  let (t1, w2) := time_Now w1
  let w3 := emit (Event.observe requestLatency (seconds (t1 - begin))) w2
  let (t2, w4) := time_Now w3
  emit (Event.log logger [LogValue.text "request_latency:", LogValue.duration (t2 - begin)]) w4

/-- Source: `instrmw.Execute`, given the `Execute` of the embedded service. The argument
`time.Now()` of the deferred call is evaluated first; the deferred closure runs after
`mw.BaseService.Execute()` on every way out, a panic included. -/
def instrmw_Execute (requestCount requestLatency logger : Handle)
    (next : World → Outcome × World) (w : World) : Outcome × World :=
  let (begin, w0) := time_Now w
  let (out, w1) := next w0
  (out, instrmw_deferred requestCount requestLatency logger begin w1)

/-- Modelled from the spec: the `Execute` of the Logging decorator, which is not part of
the embedded sources. It "logs invocation and elapsed time; purely observational, never
alters the wrapped result": one log line with the elapsed time once the wrapped call is
over, and the wrapped outcome handed on. -/
def logmw_Execute (logger : Handle) (next : World → Outcome × World) (w : World) :
    Outcome × World :=
  let (begin, w0) := time_Now w
  let (out, w1) := next w0
  let (t, w2) := time_Now w1
  (out, emit (Event.log logger
    [LogValue.text "method", LogValue.text "Execute",
     LogValue.text "took", LogValue.duration (t - begin)]) w2)

/-- Dynamic dispatch of `Execute` on a `BaseService` value. -/
def BaseService.Execute : BaseService → World → Outcome × World
  | .baseService execute => execute
  | .logmw logger next => logmw_Execute logger next.Execute
  | .instrmw requestCount requestLatency logger next =>
    instrmw_Execute requestCount requestLatency logger next.Execute

/-- Source: `type ServiceMiddleware func(BaseService) BaseService`. -/
abbrev ServiceMiddleware := BaseService → BaseService

/-- Source: `instrumentingMiddleware`. -/
def instrumentingMiddleware (requestCount requestLatency logger : Handle) :
    ServiceMiddleware :=
  fun next => BaseService.instrmw requestCount requestLatency logger next

/-- Modelled from the spec: the constructor of the Logging decorator, which is not part
of the embedded sources; it wraps exactly one inner implementer. -/
def loggingMiddleware (logger : Handle) : ServiceMiddleware :=
  fun next => BaseService.logmw logger next

/-- Source: `main`, "Create & run service":
`svc = baseService{...}`, `svc = loggingMiddleware(logger)(svc)`,
`svc = instrumentingMiddleware(requestCount, ..., latencyHistogram, logger)(svc)`.
The result is the service handed to the HTTP server. (The extra `latencyCounter`
argument of the call has no matching parameter in `instrumenting.go` and is dropped.) -/
def mainService (logger requestCount latencyHistogram : Handle)
    (core : World → Outcome × World) : BaseService :=
  let svc := BaseService.baseService core
  let svc := loggingMiddleware logger svc
  let svc := instrumentingMiddleware requestCount latencyHistogram logger svc
  svc

/-- Kinds of layers of the pipeline. -/
inductive Layer where
  | logging
  | instrumenting
  | serviceCore
  deriving DecidableEq, Repr

/-- Layers a request passes through, outermost first. -/
def BaseService.layers : BaseService → List Layer
  | .baseService _ => [Layer.serviceCore]
  | .logmw _ next => Layer.logging :: next.layers
  | .instrmw _ _ _ next => Layer.instrumenting :: next.layers

/-- The pipeline as the specification words it: "Logging as the outer layer and
Instrumenting as the inner layer (closest to Service Core)". -/
def specService (logger requestCount latencyHistogram : Handle)
    (core : World → Outcome × World) : BaseService :=
  loggingMiddleware logger
    (instrumentingMiddleware requestCount latencyHistogram logger
      (BaseService.baseService core))

/-- A service core used in examples: it makes one downstream call and returns. -/
def sampleCore : World → Outcome × World :=
  fun w => (Outcome.returned "ok" none, emit (Event.call "a") w)

/-- A world used in examples. -/
def sampleWorld : World := { now := 0, ticks := [1, 2, 3, 4, 5, 6], trace := [] }

/-! ## Loop lemmas -/

theorem forLoop_eq_iterate {σ : Type} (bound : Int) (body : σ → σ) (n : Nat) :
    ∀ (i : Int) (s : σ), (bound - i).toNat = n → forLoop bound body i s = body^[n] s := by
  induction n with
  | zero =>
    intro i s h
    rw [forLoop]
    have : ¬ i < bound := by omega
    simp [this]
  | succ n ih =>
    intro i s h
    rw [forLoop]
    have hlt : i < bound := by omega
    simp only [hlt, if_true, Function.iterate_succ, Function.comp_apply]
    exact ih (i + 1) (body s) (by omega)

theorem forLoopE_ok_iterate {ε σ : Type} (bound : Int) (body : σ → Except ε σ) (f : σ → σ)
    (hf : ∀ s, body s = Except.ok (f s)) (n : Nat) :
    ∀ (i : Int) (s : σ), (bound - i).toNat = n →
      forLoopE bound body i s = Except.ok (f^[n] s) := by
  induction n with
  | zero =>
    intro i s h
    rw [forLoopE]
    have : ¬ i < bound := by omega
    simp [this]
  | succ n ih =>
    intro i s h
    rw [forLoopE]
    have hlt : i < bound := by omega
    simp only [hlt, if_true, hf, Function.iterate_succ, Function.comp_apply]
    exact ih (i + 1) (f s) (by omega)

theorem forLoopE_eq_ok {ε σ : Type} (bound : Int) (body : σ → Except ε σ) (f : σ → σ)
    (hf : ∀ s s', body s = Except.ok s' → s' = f s) (n : Nat) :
    ∀ (i : Int) (s s' : σ), (bound - i).toNat = n →
      forLoopE bound body i s = Except.ok s' → s' = f^[n] s := by
  induction n with
  | zero =>
    intro i s s' h hrun
    rw [forLoopE] at hrun
    have : ¬ i < bound := by omega
    simp only [this, if_false, Except.ok.injEq] at hrun
    simp [hrun]
  | succ n ih =>
    intro i s s' h hrun
    rw [forLoopE] at hrun
    have hlt : i < bound := by omega
    simp only [hlt, if_true] at hrun
    cases hb : body s with
    | error e => simp [hb] at hrun
    | ok s1 =>
      simp only [hb] at hrun
      have := ih (i + 1) s1 s' (by omega) hrun
      rw [this, hf s s1 hb]
      simp [Function.iterate_succ]

/-- Running the loop up to `k` and then on to `bound` is running it up to `bound`. -/
theorem forLoopE_prefix {ε σ : Type} (bound k : Int) (body : σ → Except ε σ) (hk : k ≤ bound)
    (n : Nat) :
    ∀ (i : Int) (s s' : σ), (k - i).toNat = n → i ≤ k →
      forLoopE k body i s = Except.ok s' →
      forLoopE bound body k s' = forLoopE bound body i s := by
  induction n with
  | zero =>
    intro i s s' h hik hrun
    have hi : i = k := by omega
    subst hi
    rw [forLoopE] at hrun
    simp only [lt_irrefl, if_false, Except.ok.injEq] at hrun
    rw [hrun]
  | succ n ih =>
    intro i s s' h hik hrun
    rw [forLoopE] at hrun
    have hlt : i < k := by omega
    simp only [hlt, if_true] at hrun
    have hlt' : i < bound := by omega
    conv_rhs => rw [forLoopE]
    simp only [hlt', if_true]
    cases hb : body s with
    | error e => simp [hb] at hrun
    | ok s1 =>
      simp only [hb] at hrun ⊢
      exact ih (i + 1) s1 s' (by omega) (by omega) hrun

/-! ## Facts about the write loop -/

set_option maxRecDepth 100000 in
theorem chunk_size : (strings_Repeat "contents" 128).utf8ByteSize = 1024 := by
  decide

theorem fileOp_noFail (ev : IoEvent) (s : IoState) :
    fileOp noFail ev s = Except.ok { s with trace := s.trace ++ [ev] } := by
  simp [fileOp, noFail]

theorem fileOp_eq_ok (env : IoEnv) (ev : IoEvent) (s s' : IoState)
    (h : fileOp env ev s = Except.ok s') : s' = { s with trace := s.trace ++ [ev] } := by
  unfold fileOp at h
  split at h
  · cases h
  · cases h; rfl

theorem ioBody_noFail (s : IoState) : ioBody noFail s = Except.ok (ioStep s) := by
  simp only [ioBody, WriteString, fileOp_noFail, chunk_size, ioStep]
  by_cases hc : (524288 : Int) ≤ wrapInt64 (s.currentBytes + 1024) <;> simp [hc]

theorem WriteString_eq_ok (env : IoEnv) (str : String) (s : IoState) (n : Int)
    (s' : IoState) (h : WriteString env str s = Except.ok (n, s')) :
    n = (str.utf8ByteSize : Int) ∧
      s' = { s with trace := s.trace ++ [IoEvent.write str.utf8ByteSize] } := by
  unfold WriteString at h
  split at h
  · cases h
  · rename_i s1 h1
    have e1 := fileOp_eq_ok env _ s s1 h1
    simp only [Except.ok.injEq, Prod.mk.injEq] at h
    exact ⟨h.1.symm, by rw [← h.2, e1]⟩

theorem ioBody_eq_ok (env : IoEnv) (s s' : IoState) (h : ioBody env s = Except.ok s') :
    s' = ioStep s := by
  unfold ioBody at h
  split at h
  · cases h
  · rename_i n s1 hw
    obtain ⟨hn, hs1⟩ := WriteString_eq_ok env _ s n s1 hw
    rw [chunk_size] at hn hs1
    subst hn hs1
    unfold ioStep
    simp only [Nat.cast_ofNat] at h
    split at h
    · rename_i hc
      split at h
      · cases h
      · rename_i s3 h3
        split at h
        · cases h
        · rename_i s4 h4
          have e3 := fileOp_eq_ok env _ _ s3 h3
          have e4 := fileOp_eq_ok env _ _ s4 h4
          simp only [Except.ok.injEq] at h
          subst e3 e4
          rw [if_pos hc, ← h]
          simp
    · rename_i hc
      simp only [Except.ok.injEq] at h
      rw [if_neg hc, ← h]

theorem writtenChunks_append (a b : List IoEvent) :
    writtenChunks (a ++ b) = writtenChunks a ++ writtenChunks b := by
  induction a with
  | nil => rfl
  | cons e rest ih => cases e <;> simp [writtenChunks, ih]

theorem writtenChunks_loopTraceSpec (k : Nat) :
    writtenChunks (loopTraceSpec k) = List.replicate k 1024 := by
  induction k with
  | zero => rfl
  | succ k ih =>
    rw [loopTraceSpec, writtenChunks_append, ih, List.replicate_succ']
    split <;> simp [writtenChunks]

theorem count_flush_loopTraceSpec (k : Nat) :
    (loopTraceSpec k).count IoEvent.flush = k / 512 ∧
      (loopTraceSpec k).count IoEvent.sync = k / 512 := by
  induction k with
  | zero => simp [loopTraceSpec]
  | succ k ih =>
    rw [loopTraceSpec, List.count_append, List.count_append, ih.1, ih.2]
    split
    · rename_i hc
      simp [List.count_cons]
      omega
    · rename_i hc
      simp [List.count_cons]
      omega

/-- State of the write loop after `k` iterations without failure. -/
theorem ioStep_iterate (name : String) (k : Nat) :
    (ioStep^[k] (ioInit name)).totalBytes = wrapInt64 (1024 * (k : Int)) ∧
      (ioStep^[k] (ioInit name)).currentBytes = (1024 * (k : Int)) % 524288 ∧
      (ioStep^[k] (ioInit name)).trace = IoEvent.create name :: loopTraceSpec k := by
  induction k with
  | zero => simp [ioInit, loopTraceSpec, wrapInt64]
  | succ k ih =>
    obtain ⟨h1, h2, h3⟩ := ih
    rw [Function.iterate_succ_apply']
    generalize ioStep^[k] (ioInit name) = s at h1 h2 h3
    unfold ioStep
    by_cases hc : wrapInt64 (s.currentBytes + 1024) ≥ 1024 * 512
    · have hm : ((k + 1) * 1024) % 524288 = 0 := by
        unfold wrapInt64 at hc
        omega
      rw [if_pos hc]
      simp only [loopTraceSpec, hm, if_true]
      refine ⟨?_, ?_, by simp [h3]⟩
      · rw [h1]
        unfold wrapInt64
        push_cast
        omega
      · rw [h2] at hc ⊢
        unfold wrapInt64 at hc ⊢
        push_cast
        omega
    · have hm : ¬ ((k + 1) * 1024) % 524288 = 0 := by
        unfold wrapInt64 at hc
        omega
      rw [if_neg hc]
      simp only [loopTraceSpec, hm, if_false]
      refine ⟨?_, ?_, by simp [h3]⟩
      · rw [h1]
        unfold wrapInt64
        push_cast
        omega
      · rw [h2] at hc ⊢
        unfold wrapInt64 at hc ⊢
        push_cast
        omega

/-- A run of `ioStress` that does not panic ends in the state described here. -/
theorem ioStress_eq_ok (env : IoEnv) (fileId : Nat) (ioLoad : Int) (r : IoResult)
    (h : ioStress env fileId ioLoad = Except.ok r) :
    r.final.totalBytes = wrapInt64 (1024 * ((wrapInt64 (ioOpsBase * ioLoad)).toNat : Int)) ∧
      r.final.trace = IoEvent.create (tmpName fileId) ::
        loopTraceSpec (wrapInt64 (ioOpsBase * ioLoad)).toNat ++
          [IoEvent.flush, IoEvent.sync, IoEvent.close, IoEvent.remove (tmpName fileId)] ∧
      r.log = { ioLoad := ioLoad, bytesToWrite := ioOpsBase * 8 * 128,
                totalBytesWritten :=
                  wrapInt64 (1024 * ((wrapInt64 (ioOpsBase * ioLoad)).toNat : Int)) } := by
  unfold ioStress at h
  simp only at h
  split at h
  · cases h
  · rename_i s0 h0
    have e0 := fileOp_eq_ok env _ _ s0 h0
    split at h
    · cases h
    · rename_i s1 h1
      have e1 := forLoopE_eq_ok (wrapInt64 (ioOpsBase * ioLoad)) (ioBody env) ioStep
        (ioBody_eq_ok env) (wrapInt64 (ioOpsBase * ioLoad)).toNat 0 s0 s1 (by simp) h1
      have hs0 : s0 = ioInit (tmpName fileId) := by rw [e0]; simp [ioInit]
      rw [hs0] at e1
      obtain ⟨t1, _, t3⟩ :=
        ioStep_iterate (tmpName fileId) (wrapInt64 (ioOpsBase * ioLoad)).toNat
      rw [← e1] at t1 t3
      split at h
      · cases h
      · rename_i s2 h2
        have e2 := fileOp_eq_ok env _ _ s2 h2
        split at h
        · cases h
        · rename_i s3 h3
          have e3 := fileOp_eq_ok env _ _ s3 h3
          split at h
          · cases h
          · rename_i s4 h4
            have e4 := fileOp_eq_ok env _ _ s4 h4
            split at h
            · cases h
            · rename_i s5 h5
              have e5 := fileOp_eq_ok env _ _ s5 h5
              simp only [Except.ok.injEq] at h
              subst h
              subst e5 e4 e3 e2
              simp [t1, t3]

/-- Without file-system failures `ioStress` runs to its end. -/
theorem ioStress_noFail (fileId : Nat) (ioLoad : Int) :
    ∃ r, ioStress noFail fileId ioLoad = Except.ok r := by
  unfold ioStress
  simp only [fileOp_noFail]
  rw [forLoopE_ok_iterate (wrapInt64 (ioOpsBase * ioLoad)) (ioBody noFail) ioStep
    ioBody_noFail (wrapInt64 (ioOpsBase * ioLoad)).toNat 0 _ (by simp)]
  exact ⟨_, rfl⟩

theorem cpuBody_iterate (rng : Nat → ℚ) (k : Nat) (s : CpuState) :
    ((cpuBody rng)^[k] s).sqrtArgs.length = s.sqrtArgs.length + k := by
  induction k generalizing s with
  | zero => rfl
  | succ k ih =>
    rw [Function.iterate_succ_apply, ih]
    simp [cpuBody]
    omega

/-- Number of square roots taken by `cpuStress`, for every load. -/
theorem cpuStress_length (rng : Nat → ℚ) (cpuLoad : Int) :
    (cpuStress rng cpuLoad).sqrtArgs.length = (wrapInt64 (cpuOpsBase * cpuLoad)).toNat := by
  simp only [cpuStress]
  rw [forLoop_eq_iterate (wrapInt64 (cpuOpsBase * cpuLoad)) (cpuBody rng)
    (wrapInt64 (cpuOpsBase * cpuLoad)).toNat 0 _ (by simp), cpuBody_iterate]
  simp

/-! ## Facts about float64 rounding -/

theorem roundHalfEven_le (q : ℚ) (k : Int) (h : q ≤ (k : ℚ)) : roundHalfEven q ≤ k := by
  have hf : ((Int.floor q : Int) : ℚ) ≤ q := Int.floor_le q
  have hfk : Int.floor q ≤ k := by exact_mod_cast hf.trans h
  unfold roundHalfEven
  simp only
  split
  · exact hfk
  · rename_i hd
    have hlt : ((Int.floor q : Int) : ℚ) < (k : ℚ) := by linarith
    have hlt' : Int.floor q < k := by exact_mod_cast hlt
    split
    · omega
    · split
      · exact hfk
      · omega

theorem le_roundHalfEven (q : ℚ) (k : Int) (h : (k : ℚ) ≤ q) : k ≤ roundHalfEven q := by
  have hfk : k ≤ Int.floor q := Int.le_floor.mpr h
  unfold roundHalfEven
  simp only
  split
  · exact hfk
  · split
    · omega
    · split
      · exact hfk
      · omega

theorem roundHalfEven_sub_le (q : ℚ) : (roundHalfEven q : ℚ) - q ≤ 1 / 2 := by
  have hf : ((Int.floor q : Int) : ℚ) ≤ q := Int.floor_le q
  have hf2 : q < ((Int.floor q : Int) : ℚ) + 1 := Int.lt_floor_add_one q
  unfold roundHalfEven
  simp only
  split
  · linarith
  · rename_i hd
    split
    · push_cast; linarith
    · split
      · linarith
      · push_cast; linarith

theorem ulp_pos (e : Int) : (0 : ℚ) < (2 : ℚ) ^ e := zpow_pos (by norm_num) e

theorem log2_eq (x : ℚ) (e : Int) (hx : x ≠ 0) (h1 : (2 : ℚ) ^ e ≤ |x|)
    (h2 : |x| < (2 : ℚ) ^ (e + 1)) : Int.log 2 |x| = e := by
  have hpos : (0 : ℚ) < |x| := abs_pos.mpr hx
  have a := (Int.lt_zpow_iff_log_lt (R := ℚ) (b := 2) (by norm_num) hpos (x := e + 1)).1
    (by exact_mod_cast h2)
  have b := (Int.zpow_le_iff_le_log (R := ℚ) (b := 2) (by norm_num) hpos (x := e)).1
    (by exact_mod_cast h1)
  omega

theorem log2_lt (x : ℚ) (m : Int) (hx : x ≠ 0) (h2 : |x| < (2 : ℚ) ^ m) :
    Int.log 2 |x| < m := by
  have hpos : (0 : ℚ) < |x| := abs_pos.mpr hx
  exact (Int.lt_zpow_iff_log_lt (R := ℚ) (b := 2) (by norm_num) hpos (x := m)).1
    (by exact_mod_cast h2)

theorem zpow_log2_le (x : ℚ) (hx : x ≠ 0) : (2 : ℚ) ^ (Int.log 2 |x|) ≤ |x| := by
  have hpos : (0 : ℚ) < |x| := abs_pos.mpr hx
  have := Int.zpow_log_le_self (R := ℚ) (b := 2) (by norm_num) hpos
  exact_mod_cast this

theorem lt_zpow_log2 (x : ℚ) : |x| < (2 : ℚ) ^ (Int.log 2 |x| + 1) := by
  have := Int.lt_zpow_succ_log_self (R := ℚ) (b := 2) (by norm_num) |x|
  exact_mod_cast this

theorem float64_le_of_grid (x c : ℚ) (k : Int)
    (hc : c = (k : ℚ) * (2 : ℚ) ^ (Int.log 2 |x| - 52)) (h : x ≤ c) : float64 x ≤ c := by
  unfold float64
  split
  · rename_i h0
    rw [h0] at h
    exact h
  · simp only
    have hu := ulp_pos (Int.log 2 |x| - 52)
    have hq : x / (2 : ℚ) ^ (Int.log 2 |x| - 52) ≤ (k : ℚ) := by
      rw [div_le_iff₀ hu, ← hc]
      exact h
    have := roundHalfEven_le _ k hq
    rw [hc]
    exact mul_le_mul_of_nonneg_right (by exact_mod_cast this) hu.le

theorem le_float64_of_grid (x c : ℚ) (k : Int)
    (hc : c = (k : ℚ) * (2 : ℚ) ^ (Int.log 2 |x| - 52)) (h : c ≤ x) : c ≤ float64 x := by
  unfold float64
  split
  · rename_i h0
    rw [h0] at h
    exact h
  · simp only
    have hu := ulp_pos (Int.log 2 |x| - 52)
    have hq : (k : ℚ) ≤ x / (2 : ℚ) ^ (Int.log 2 |x| - 52) := by
      rw [le_div_iff₀ hu, ← hc]
      exact h
    have := le_roundHalfEven _ k hq
    rw [hc]
    exact mul_le_mul_of_nonneg_right (by exact_mod_cast this) hu.le

theorem grid_of (n s e : Int) (h : e ≤ s + 52) :
    ∃ k : Int, (n : ℚ) * (2 : ℚ) ^ s = (k : ℚ) * (2 : ℚ) ^ (e - 52) := by
  refine ⟨n * 2 ^ (s + 52 - e).toNat, ?_⟩
  have hs : s = ((s + 52 - e).toNat : Int) + (e - 52) := by omega
  have h2 : (2 : ℚ) ^ s = (2 : ℚ) ^ (s + 52 - e).toNat * (2 : ℚ) ^ (e - 52) := by
    conv_lhs => rw [hs]
    rw [zpow_add₀ (by norm_num), zpow_natCast]
  rw [h2]
  push_cast
  ring


theorem float64_zero : float64 0 = 0 := by simp [float64]

theorem float64_nonpos (x : ℚ) (h : x ≤ 0) : float64 x ≤ 0 :=
  float64_le_of_grid x 0 0 (by simp) h

theorem float64_nonneg (x : ℚ) (h : 0 ≤ x) : 0 ≤ float64 x :=
  le_float64_of_grid x 0 0 (by simp) h

/-- Rounding does not cross an integer of magnitude at most `2^53` that bounds the
argument in absolute value. -/
theorem float64_int_bound (J : Int) (hJ : J ≤ 9007199254740992) (x : ℚ)
    (hx : |x| ≤ (J : ℚ)) : -(J : ℚ) ≤ float64 x ∧ float64 x ≤ (J : ℚ) := by
  by_cases h0 : x = 0
  · subst h0
    rw [float64_zero]
    have : (0 : ℚ) ≤ (J : ℚ) := le_trans (abs_nonneg _) hx
    constructor <;> linarith
  · have hle := zpow_log2_le x h0
    have hgrid : ∃ k : Int, (J : ℚ) = (k : ℚ) * (2 : ℚ) ^ (Int.log 2 |x| - 52) := by
      rcases eq_or_lt_of_le hJ with hJe | hJl
      · have h53 : (2 : ℚ) ^ (Int.log 2 |x|) ≤ (2 : ℚ) ^ (53 : Int) := by
          refine hle.trans (hx.trans ?_)
          rw [hJe]
          norm_num
        have he : Int.log 2 |x| ≤ 53 := (zpow_le_zpow_iff_right₀ (by norm_num)).1 h53
        obtain ⟨k, hk⟩ := grid_of 1 53 (Int.log 2 |x|) (by omega)
        refine ⟨k, ?_⟩
        rw [← hk, hJe]
        norm_num
      · have hlt : |x| < (2 : ℚ) ^ (53 : Int) := by
          have : (J : ℚ) < 9007199254740992 := by exact_mod_cast hJl
          have h2 : (2 : ℚ) ^ (53 : Int) = 9007199254740992 := by norm_num
          rw [h2]
          exact lt_of_le_of_lt hx this
        have he := log2_lt x 53 h0 hlt
        obtain ⟨k, hk⟩ := grid_of J 0 (Int.log 2 |x|) (by omega)
        refine ⟨k, ?_⟩
        rw [← hk]
        simp
    obtain ⟨k, hk⟩ := hgrid
    have hx' := abs_le.mp hx
    constructor
    · exact le_float64_of_grid x (-(J : ℚ)) (-k) (by rw [hk]; push_cast; ring) hx'.1
    · exact float64_le_of_grid x (J : ℚ) k hk hx'.2

theorem float64_intCast (J : Int) (hJ0 : 0 ≤ J) (hJ : J ≤ 9007199254740992) :
    float64 (J : ℚ) = (J : ℚ) := by
  have hJq : (0 : ℚ) ≤ (J : ℚ) := by exact_mod_cast hJ0
  have hb := float64_int_bound J hJ (J : ℚ) (by rw [abs_of_nonneg hJq])
  by_cases h0 : (J : ℚ) = 0
  · rw [h0, float64_zero]
  · have hle := zpow_log2_le (J : ℚ) h0
    -- the lower bound comes from the same grid
    have hgrid : ∃ k : Int, (J : ℚ) = (k : ℚ) * (2 : ℚ) ^ (Int.log 2 |(J : ℚ)| - 52) := by
      rcases eq_or_lt_of_le hJ with hJe | hJl
      · have h53 : (2 : ℚ) ^ (Int.log 2 |(J : ℚ)|) ≤ (2 : ℚ) ^ (53 : Int) := by
          refine hle.trans ?_
          rw [abs_of_nonneg hJq, hJe]
          norm_num
        have he : Int.log 2 |(J : ℚ)| ≤ 53 := (zpow_le_zpow_iff_right₀ (by norm_num)).1 h53
        obtain ⟨k, hk⟩ := grid_of 1 53 (Int.log 2 |(J : ℚ)|) (by omega)
        refine ⟨k, ?_⟩
        rw [← hk, hJe]
        norm_num
      · have hlt : |(J : ℚ)| < (2 : ℚ) ^ (53 : Int) := by
          have : (J : ℚ) < 9007199254740992 := by exact_mod_cast hJl
          have h2 : (2 : ℚ) ^ (53 : Int) = 9007199254740992 := by norm_num
          rw [h2, abs_of_nonneg hJq]
          exact this
        have he := log2_lt (J : ℚ) 53 h0 hlt
        obtain ⟨k, hk⟩ := grid_of J 0 (Int.log 2 |(J : ℚ)|) (by omega)
        refine ⟨k, ?_⟩
        rw [← hk]
        simp
    obtain ⟨k, hk⟩ := hgrid
    exact le_antisymm hb.2 (le_float64_of_grid (J : ℚ) (J : ℚ) k hk le_rfl)

/-- Rounding a positive number raises it by at most the factor `1 + 2^-53`. -/
theorem float64_le_rel (x : ℚ) (hx : 0 < x) : float64 x ≤ x + x / 9007199254740992 := by
  have h0 : x ≠ 0 := ne_of_gt hx
  have hle := zpow_log2_le x h0
  unfold float64
  simp only [h0, if_false]
  generalize Int.log 2 |x| = e at hle ⊢
  rw [abs_of_pos hx] at hle
  have hu := ulp_pos (e - 52)
  have hr := roundHalfEven_sub_le (x / (2 : ℚ) ^ (e - 52))
  have hu2 : (2 : ℚ) ^ (e - 52) = (2 : ℚ) ^ e / 4503599627370496 := by
    rw [zpow_sub₀ (by norm_num)]
    norm_num
  have hmul : ((roundHalfEven (x / (2 : ℚ) ^ (e - 52)) : ℚ) - x / (2 : ℚ) ^ (e - 52))
      * (2 : ℚ) ^ (e - 52) ≤ 1 / 2 * (2 : ℚ) ^ (e - 52) :=
    mul_le_mul_of_nonneg_right hr hu.le
  rw [sub_mul, div_mul_cancel₀ _ (ne_of_gt hu)] at hmul
  rw [hu2] at hmul
  rw [hu2]
  linarith

/-- A float64 value below 1 is at most the largest float64 below 1. -/
theorem float64_lt_one (r : ℚ) (hr : float64 r = r) (h0 : 0 ≤ r) (h1 : r < 1) :
    r ≤ 1 - 1 / 9007199254740992 := by
  by_cases hz : r = 0
  · rw [hz]; norm_num
  · have hpos : 0 < r := lt_of_le_of_ne h0 (Ne.symm hz)
    have he : Int.log 2 |r| < 0 := log2_lt r 0 hz (by rw [abs_of_pos hpos]; simpa using h1)
    have hlt := lt_zpow_log2 r
    unfold float64 at hr
    simp only [hz, if_false] at hr
    generalize Int.log 2 |r| = e at he hlt hr
    rw [abs_of_pos hpos] at hlt
    have hu := ulp_pos (e - 52)
    have hsplit : (2 : ℚ) ^ (e + 1) = 9007199254740992 * (2 : ℚ) ^ (e - 52) := by
      have : e + 1 = 53 + (e - 52) := by ring
      rw [this, zpow_add₀ (by norm_num)]
      norm_num
    have hq : r / (2 : ℚ) ^ (e - 52) ≤ ((9007199254740992 : Int) : ℚ) := by
      rw [div_le_iff₀ hu]
      push_cast
      rw [← hsplit]
      exact hlt.le
    have hk := roundHalfEven_le _ _ hq
    have hk' : roundHalfEven (r / (2 : ℚ) ^ (e - 52)) ≠ 9007199254740992 := by
      intro hEq
      rw [hEq] at hr
      push_cast at hr
      rw [← hsplit] at hr
      linarith
    have hk2 : roundHalfEven (r / (2 : ℚ) ^ (e - 52)) ≤ 9007199254740991 := by
      omega
    have hk3 : (roundHalfEven (r / (2 : ℚ) ^ (e - 52)) : ℚ) ≤ 9007199254740991 := by
      exact_mod_cast hk2
    have hule : (2 : ℚ) ^ (e - 52) ≤ 1 / 9007199254740992 := by
      have : (2 : ℚ) ^ (e - 52) ≤ (2 : ℚ) ^ (-53 : Int) :=
        zpow_le_zpow_right₀ (by norm_num) (by omega)
      refine this.trans ?_
      norm_num
    have hkpos : (0 : ℚ) ≤ (roundHalfEven (r / (2 : ℚ) ^ (e - 52)) : ℚ) := by
      have := le_roundHalfEven (r / (2 : ℚ) ^ (e - 52)) 0
        (by push_cast; exact (div_pos hpos hu).le)
      exact_mod_cast this
    calc r = (roundHalfEven (r / (2 : ℚ) ^ (e - 52)) : ℚ) * (2 : ℚ) ^ (e - 52) := hr.symm
      _ ≤ (roundHalfEven (r / (2 : ℚ) ^ (e - 52)) : ℚ) * (1 / 9007199254740992) :=
          mul_le_mul_of_nonneg_left hule hkpos
      _ ≤ 9007199254740991 * (1 / 9007199254740992) :=
          mul_le_mul_of_nonneg_right hk3 (by norm_num)
      _ = 1 - 1 / 9007199254740992 := by norm_num


theorem roundHalfEven_intCast (k : Int) : roundHalfEven (k : ℚ) = k := by
  simp [roundHalfEven]

theorem roundHalfEven_eval (q : ℚ) (f : Int) (hf1 : (f : ℚ) ≤ q) (hf2 : q < (f : ℚ) + 1) :
    roundHalfEven q =
      if q - f < 1 / 2 then f
      else if 1 / 2 < q - f then f + 1
      else if f % 2 = 0 then f else f + 1 := by
  have : Int.floor q = f := Int.floor_eq_iff.mpr ⟨hf1, hf2⟩
  simp only [roundHalfEven, this]

theorem float64_eval (x : ℚ) (e k : Int) (hx : x ≠ 0) (h1 : (2 : ℚ) ^ e ≤ |x|)
    (h2 : |x| < (2 : ℚ) ^ (e + 1)) (hk : roundHalfEven (x / (2 : ℚ) ^ (e - 52)) = k) :
    float64 x = (k : ℚ) * (2 : ℚ) ^ (e - 52) := by
  simp only [float64, hx, if_false, log2_eq x e hx h1 h2, hk]

theorem float64_exact (x : ℚ) (e k : Int) (hx : x ≠ 0) (h1 : (2 : ℚ) ^ e ≤ |x|)
    (h2 : |x| < (2 : ℚ) ^ (e + 1)) (hk : x = (k : ℚ) * (2 : ℚ) ^ (e - 52)) :
    float64 x = x := by
  have hu := ulp_pos (e - 52)
  have hq : x / (2 : ℚ) ^ (e - 52) = (k : ℚ) := by
    rw [div_eq_iff (ne_of_gt hu)]
    exact hk
  rw [float64_eval x e k hx h1 h2 (by rw [hq, roundHalfEven_intCast]), ← hk]

theorem int_math_Floor (x : ℚ) : int (math_Floor x) = Int.floor x := by
  unfold int math_Floor
  split <;> simp

/-- The float64 product of `delay` stays within `[-J, J]`. -/
theorem product_bounds (r : ℚ) (J : Int) (h0 : 0 ≤ r) (h1 : r < 1) (hJ0 : 0 ≤ J)
    (hJ : J ≤ 9007199254740992) :
    -(J : ℚ) ≤ float64 (float64 (float64 (r * 2) - 1) * float64 (J : ℚ)) ∧
      float64 (float64 (float64 (r * 2) - 1) * float64 (J : ℚ)) ≤ (J : ℚ) := by
  have hJq : (0 : ℚ) ≤ (J : ℚ) := by exact_mod_cast hJ0
  rw [float64_intCast J hJ0 hJ]
  have ht := float64_int_bound 2 (by norm_num) (r * 2)
    (by rw [abs_of_nonneg (by linarith)]; push_cast; linarith)
  have ht0 := float64_nonneg (r * 2) (by linarith)
  push_cast at ht
  have ha := float64_int_bound 1 (by norm_num) (float64 (r * 2) - 1)
    (by rw [abs_le]; push_cast; constructor <;> linarith)
  push_cast at ha
  refine float64_int_bound J hJ _ ?_
  rw [abs_le]
  constructor <;> nlinarith [ha.1, ha.2]

/-- For a float64 draw below 1 the product stays strictly below `J`. -/
theorem product_lt (r : ℚ) (J : Int) (hr : float64 r = r) (h0 : 0 ≤ r) (h1 : r < 1)
    (hJ1 : 1 ≤ J) (hJ : J ≤ 9007199254740992) :
    float64 (float64 (float64 (r * 2) - 1) * float64 (J : ℚ)) < (J : ℚ) := by
  have hJq : (1 : ℚ) ≤ (J : ℚ) := by exact_mod_cast hJ1
  rw [float64_intCast J (by omega) hJ]
  have hr1 := float64_lt_one r hr h0 h1
  -- the doubled draw stays at or below the float64 `2 - 2^-52`
  have ht : float64 (r * 2) ≤ 2 - 1 / 4503599627370496 := by
    by_cases hz : r * 2 = 0
    · rw [hz, float64_zero]; norm_num
    · have hlt : |r * 2| < (2 : ℚ) ^ (1 : Int) := by
        rw [abs_of_nonneg (by linarith)]
        norm_num
        linarith
      have he := log2_lt (r * 2) 1 hz hlt
      obtain ⟨k, hk⟩ := grid_of 9007199254740991 (-52) (Int.log 2 |r * 2|) (by omega)
      refine float64_le_of_grid (r * 2) _ k ?_ (by linarith)
      rw [← hk]
      norm_num
  have ha : float64 (float64 (r * 2) - 1)
      ≤ (1 - 1 / 4503599627370496) * (1 + 1 / 9007199254740992) := by
    by_cases hx : float64 (r * 2) - 1 ≤ 0
    · exact (float64_nonpos _ hx).trans (by norm_num)
    · push_neg at hx
      have := float64_le_rel _ hx
      nlinarith
  by_cases hx : float64 (float64 (r * 2) - 1) * (J : ℚ) ≤ 0
  · exact lt_of_le_of_lt (float64_nonpos _ hx) (by linarith)
  · push_neg at hx
    have hrel := float64_le_rel _ hx
    have hprod : float64 (float64 (r * 2) - 1) * (J : ℚ)
        ≤ (1 - 1 / 4503599627370496) * (1 + 1 / 9007199254740992) * (J : ℚ) :=
      mul_le_mul_of_nonneg_right ha (by linarith)
    have hc : (1 - 1 / 4503599627370496 : ℚ) * (1 + 1 / 9007199254740992)
        * (1 + 1 / 9007199254740992) < 1 := by norm_num
    nlinarith


/-! ## Evaluations of delay -/

/-- The float64 product rounds up to 7 where the exact product is just below 7. -/
theorem delay_at_100_10 :
    delay (7656119366529843 / 9007199254740992) 100 10
      = { jitter := 7, sleepMs := 107, sleepNs := 107000000, loggedMs := 107 } := by
  have e1 : float64 ((7656119366529843 / 9007199254740992 : ℚ) * 2)
      = 7656119366529843 / 4503599627370496 := by
    rw [float64_exact _ 0 7656119366529843 (by norm_num) (by norm_num [abs_of_pos])
      (by norm_num [abs_of_pos]) (by norm_num)]
    norm_num
  have e2 : float64 ((7656119366529843 / 4503599627370496 : ℚ) - 1)
      = 3152519739159347 / 4503599627370496 := by
    rw [float64_exact _ (-1) 6305039478318694 (by norm_num) (by norm_num [abs_of_pos])
      (by norm_num [abs_of_pos]) (by norm_num)]
    norm_num
  have e3 : float64 ((10 : Int) : ℚ) = 10 := by
    rw [float64_intCast 10 (by norm_num) (by norm_num)]
    norm_num
  have e4 : float64 ((3152519739159347 / 4503599627370496 : ℚ) * 10) = 7 := by
    rw [float64_eval _ 2 7881299347898368 (by norm_num) (by norm_num [abs_of_pos])
      (by norm_num [abs_of_pos])
      (by rw [roundHalfEven_eval _ 7881299347898367 (by norm_num) (by norm_num)]; norm_num)]
    norm_num
  simp only [delay, e1, e2, e3, e4, int_math_Floor]
  norm_num [wrapInt64]

theorem float64_neg_one : float64 (-1) = -1 := by
  rw [float64_exact (-1) 0 (-4503599627370496) (by norm_num) (by norm_num)
    (by norm_num) (by norm_num)]

/-- At `r = 0` the offset is minus the float64 value of the jitter. -/
theorem delay_jitter_at_zero (delayTime jitter : Int) :
    (delay 0 delayTime jitter).jitter
      = Int.floor (float64 (-1 * float64 (jitter : ℚ))) := by
  simp only [delay, int_math_Floor]
  norm_num [float64_zero, float64_neg_one]

/-- The conversion `float64(2^53 + 3)` rounds to `2^53 + 4`. -/
theorem float64_big_jitter :
    float64 ((9007199254740995 : Int) : ℚ) = 9007199254740996 := by
  rw [float64_eval _ 53 4503599627370498 (by norm_num) (by norm_num [abs_of_pos])
    (by norm_num [abs_of_pos])
    (by rw [roundHalfEven_eval _ 4503599627370497 (by norm_num) (by norm_num)]; norm_num)]
  norm_num

theorem delay_at_big_jitter :
    (delay 0 0 9007199254740995).jitter = -9007199254740996 ∧
      (delay 0 0 9007199254740995).sleepMs = -9007199254740996 := by
  have e : float64 (-1 * (9007199254740996 : ℚ)) = -9007199254740996 := by
    rw [float64_exact _ 53 (-4503599627370498) (by norm_num) (by norm_num [abs_of_pos])
      (by norm_num [abs_of_pos]) (by norm_num)]
    norm_num
  have hj : (delay 0 0 9007199254740995).jitter = -9007199254740996 := by
    rw [delay_jitter_at_zero, float64_big_jitter, e]
    have : (-9007199254740996 : ℚ) = ((-9007199254740996 : Int) : ℚ) := by norm_num
    rw [this, Int.floor_intCast]
  refine ⟨hj, ?_⟩
  have hs : (delay 0 0 9007199254740995).sleepMs
      = wrapInt64 (0 + (delay 0 0 9007199254740995).jitter) := rfl
  rw [hs, hj]
  decide

theorem delay_at_max_delay :
    (delay (3 / 4) 9223372036854775807 2).jitter = 1 ∧
      (delay (3 / 4) 9223372036854775807 2).sleepMs = -9223372036854775808 := by
  have e1 : float64 ((3 / 4 : ℚ) * 2) = 3 / 2 := by
    rw [float64_exact _ 0 6755399441055744 (by norm_num) (by norm_num [abs_of_pos])
      (by norm_num [abs_of_pos]) (by norm_num)]
    norm_num
  have e2 : float64 ((3 / 2 : ℚ) - 1) = 1 / 2 := by
    rw [float64_exact _ (-1) 4503599627370496 (by norm_num) (by norm_num [abs_of_pos])
      (by norm_num [abs_of_pos]) (by norm_num)]
    norm_num
  have e3 : float64 ((2 : Int) : ℚ) = 2 := by
    rw [float64_intCast 2 (by norm_num) (by norm_num)]
    norm_num
  have e4 : float64 ((1 / 2 : ℚ) * 2) = 1 := by
    rw [float64_exact _ 0 4503599627370496 (by norm_num) (by norm_num [abs_of_pos])
      (by norm_num [abs_of_pos]) (by norm_num)]
    norm_num
  have hj : (delay (3 / 4) 9223372036854775807 2).jitter = 1 := by
    simp only [delay, e1, e2, e3, e4, int_math_Floor]
    norm_num
  refine ⟨hj, ?_⟩
  have hs : (delay (3 / 4) 9223372036854775807 2).sleepMs
      = wrapInt64 (9223372036854775807 + (delay (3 / 4) 9223372036854775807 2).jitter) := rfl
  rw [hs, hj]
  decide

theorem delay_at_min_delay :
    (delay 0 (-9223372036854775808) 1).jitter = -1 ∧
      (delay 0 (-9223372036854775808) 1).sleepMs = 9223372036854775807 := by
  have hj : (delay 0 (-9223372036854775808) 1).jitter = -1 := by
    rw [delay_jitter_at_zero]
    have e3 : float64 ((1 : Int) : ℚ) = 1 := by
      rw [float64_intCast 1 (by norm_num) (by norm_num)]
      norm_num
    rw [e3]
    norm_num [float64_neg_one]
  refine ⟨hj, ?_⟩
  have hs : (delay 0 (-9223372036854775808) 1).sleepMs
      = wrapInt64 (-9223372036854775808 + (delay 0 (-9223372036854775808) 1).jitter) := rfl
  rw [hs, hj]
  decide

theorem float64_draw_example :
    float64 (7656119366529843 / 9007199254740992) = 7656119366529843 / 9007199254740992 := by
  rw [float64_exact _ (-1) 7656119366529843 (by norm_num) (by norm_num [abs_of_pos])
    (by norm_num [abs_of_pos]) (by norm_num)]

/-- Bounds of the jitter offset of `delay` for a jitter of at most `2^53`. -/
theorem jitter_bounds (r : ℚ) (delayTime jitter : Int) (hr0 : 0 ≤ r) (hr1 : r < 1)
    (hj : 0 ≤ jitter) (hj53 : jitter ≤ 9007199254740992) :
    (delay r delayTime jitter).jitter
        = Int.floor (float64 (float64 (float64 (r * 2) - 1) * float64 (jitter : ℚ))) ∧
      -jitter ≤ (delay r delayTime jitter).jitter ∧
      (delay r delayTime jitter).jitter ≤ jitter ∧
      (float64 r = r → 1 ≤ jitter → (delay r delayTime jitter).jitter ≤ jitter - 1) := by
  have hj' : (delay r delayTime jitter).jitter
      = Int.floor (float64 (float64 (float64 (r * 2) - 1) * float64 (jitter : ℚ))) := by
    simp only [delay, int_math_Floor]
  obtain ⟨hlo, hhi⟩ := product_bounds r jitter hr0 hr1 hj hj53
  rw [hj']
  refine ⟨rfl, ?_, ?_, ?_⟩
  · rw [Int.le_floor]
    push_cast
    exact hlo
  · have := (Int.floor_le _).trans hhi
    exact_mod_cast this
  · intro hr h1
    have hlt := product_lt r jitter hr hr0 hr1 h1 hj53
    have : Int.floor (float64 (float64 (float64 (r * 2) - 1) * float64 (jitter : ℚ)))
        < jitter := by
      rw [Int.floor_lt]
      exact hlt
    omega

/-! ## Claims -/

/-- C3, as stated, fails: with `jitter = 2^53 + 3` (which `float64` rounds to
`2^53 + 4`) and the draw `r = 0` the computed sleep is below `delayTime - jitter`; with
`delayTime = 2^63 - 1`, `jitter = 2`, `r = 3/4` the sum wraps to `-2^63`; and at
`delay = 100`, `jitter = 10` there is a draw for which the code sleeps 107 ms where the
exact formula `delayTime + floor((2r - 1) * jitter)` gives 106. -/
theorem delay_sleep_outside_interval :
    ¬ ((0 : Int) - 9007199254740995 ≤ (delay 0 0 9007199254740995).sleepMs) ∧
    ¬ ((9223372036854775807 : Int) - 2 ≤ (delay (3 / 4) 9223372036854775807 2).sleepMs) ∧
    (delay (7656119366529843 / 9007199254740992) 100 10).sleepMs = 107 ∧
    (100 : Int) + Int.floor ((2 * (7656119366529843 / 9007199254740992 : ℚ) - 1)
      * ((10 : Int) : ℚ)) = 106 := by
  refine ⟨?_, ?_, ?_, ?_⟩
  · rw [delay_at_big_jitter.2]
    decide
  · rw [delay_at_max_delay.2]
    decide
  · rw [delay_at_100_10]
  · have : Int.floor ((2 * (7656119366529843 / 9007199254740992 : ℚ) - 1)
        * ((10 : Int) : ℚ)) = 6 := by
      rw [Int.floor_eq_iff]
      constructor <;> norm_num
    rw [this]
    rfl

/-- C3, amended: for `delayTime ≥ 0`, `0 ≤ jitter ≤ 2^53` with `delayTime + jitter`
below `2^63`, and a draw `r` in `[0,1)`, the number of milliseconds `delay` sleeps is
`delayTime` plus the floor of the float64 product `(2r - 1) * jitter`, it lies in
`[delayTime - jitter, delayTime + jitter]`, and it is the figure logged. -/
theorem delay_sleep_within_jitter (delayTime jitter : Int) (r : ℚ)
    (hd : 0 ≤ delayTime) (hj : 0 ≤ jitter) (hj53 : jitter ≤ 9007199254740992)
    (hsum : delayTime + jitter < 9223372036854775808) (hr0 : 0 ≤ r) (hr1 : r < 1) :
    (delay r delayTime jitter).sleepMs = delayTime
        + Int.floor (float64 (float64 (float64 (r * 2) - 1) * float64 (jitter : ℚ))) ∧
      delayTime - jitter ≤ (delay r delayTime jitter).sleepMs ∧
      (delay r delayTime jitter).sleepMs ≤ delayTime + jitter ∧
      (delay r delayTime jitter).loggedMs = (delay r delayTime jitter).sleepMs := by
  obtain ⟨hj', hlo, hhi, _⟩ := jitter_bounds r delayTime jitter hr0 hr1 hj hj53
  have hs : (delay r delayTime jitter).sleepMs
      = wrapInt64 (delayTime + (delay r delayTime jitter).jitter) := rfl
  have hw : wrapInt64 (delayTime + (delay r delayTime jitter).jitter)
      = delayTime + (delay r delayTime jitter).jitter := by
    unfold wrapInt64
    omega
  rw [hs, hw]
  refine ⟨by rw [hj'], by omega, by omega, ?_⟩
  show wrapInt64 _ = _
  exact hw

/-- Witness for C3: `delay = 100`, `jitter = 10` and a draw for which the offset is 7:
the sleep, 107 ms, is within `[90,110]`. -/
theorem delay_sleep_within_jitter_witness :
    (0 : Int) ≤ 100 ∧ (0 : Int) ≤ 10 ∧ (10 : Int) ≤ 9007199254740992 ∧
      (100 : Int) + 10 < 9223372036854775808 ∧
      (0 : ℚ) ≤ 7656119366529843 / 9007199254740992 ∧
      (7656119366529843 / 9007199254740992 : ℚ) < 1 ∧
      (delay (7656119366529843 / 9007199254740992) 100 10).sleepMs = 107 ∧
      (100 : Int) - 10 ≤ (delay (7656119366529843 / 9007199254740992) 100 10).sleepMs ∧
      (delay (7656119366529843 / 9007199254740992) 100 10).sleepMs ≤ 100 + 10 :=
  have h := delay_sleep_within_jitter 100 10 (7656119366529843 / 9007199254740992)
    (by decide) (by decide) (by decide) (by decide) (by norm_num) (by norm_num)
  ⟨by decide, by decide, by decide, by decide, by norm_num, by norm_num,
    by rw [delay_at_100_10], h.2.1, h.2.2.1⟩

/-- C10, as stated, fails: with `jitter = 2^53 + 3` and `r = 0` the offset is
`-jitter - 1`, outside `[-jitter, jitter - 1]` and not `-jitter`; and with
`delayTime = -2^63`, `jitter = 1`, `r = 0` the sum wraps, so the sleep figure exceeds
`delayTime + jitter - 1`. -/
theorem delay_offset_outside_range :
    (1 : Int) ≤ 9007199254740995 ∧
    (delay 0 0 9007199254740995).jitter = -9007199254740995 - 1 ∧
    ¬ (-9007199254740995 ≤ (delay 0 0 9007199254740995).jitter) ∧
    (delay 0 0 9007199254740995).jitter ≠ -9007199254740995 ∧
    ¬ ((delay 0 (-9223372036854775808) 1).sleepMs ≤ -9223372036854775808 + 1 - 1) := by
  rw [delay_at_big_jitter.1, delay_at_min_delay.2]
  decide

/-- C10, amended: the jitter offset of `delay` is the floor of the float64 product
`(2r - 1) * jitter`. For `1 ≤ jitter ≤ 2^53` and a float64 draw `r` in `[0,1)` it is an
integer in `[-jitter, jitter - 1]`: `-jitter` is attained at `r = 0`, `+jitter` is never
produced, and when `delayTime - jitter` is not below `-2^63` the sleep is at most
`delayTime + jitter - 1` ms. For `jitter = 0` the offset is 0. -/
theorem delay_jitter_offset_range (delayTime jitter : Int) (r : ℚ)
    (hr : float64 r = r) (hr0 : 0 ≤ r) (hr1 : r < 1) :
    (delay r delayTime jitter).jitter
        = Int.floor (float64 (float64 (float64 (r * 2) - 1) * float64 (jitter : ℚ))) ∧
    (1 ≤ jitter → jitter ≤ 9007199254740992 →
      -jitter ≤ (delay r delayTime jitter).jitter ∧
      (delay r delayTime jitter).jitter ≤ jitter - 1 ∧
      (delay r delayTime jitter).jitter ≠ jitter ∧
      (delay 0 delayTime jitter).jitter = -jitter ∧
      (-9223372036854775808 ≤ delayTime - jitter →
        (delay r delayTime jitter).sleepMs ≤ delayTime + jitter - 1)) ∧
    (delay r delayTime 0).jitter = 0 := by
  refine ⟨by simp only [delay, int_math_Floor], ?_, ?_⟩
  · intro h1 h53
    obtain ⟨_, hlo, _, hhi⟩ := jitter_bounds r delayTime jitter hr0 hr1 (by omega) h53
    have hhi' := hhi hr h1
    refine ⟨hlo, hhi', by omega, ?_, ?_⟩
    · rw [delay_jitter_at_zero, float64_intCast jitter (by omega) h53]
      have e : (-1 * (jitter : ℚ)) = ((-jitter : Int) : ℚ) := by
        push_cast
        ring
      have hb := float64_int_bound jitter h53 (-1 * (jitter : ℚ)) (by
        have : (0 : ℚ) ≤ (jitter : ℚ) := by exact_mod_cast (by omega : (0 : Int) ≤ jitter)
        rw [abs_le]
        constructor <;> linarith)
      have hnp := float64_nonpos (-1 * (jitter : ℚ)) (by
        have : (0 : ℚ) ≤ (jitter : ℚ) := by exact_mod_cast (by omega : (0 : Int) ≤ jitter)
        linarith)
      have hge : ((-jitter : Int) : ℚ) ≤ float64 (-1 * (jitter : ℚ)) := by
        push_cast
        exact hb.1
      have hle : float64 (-1 * (jitter : ℚ)) ≤ ((-jitter : Int) : ℚ) := by
        obtain ⟨k, hk⟩ : ∃ k : Int, ((-jitter : Int) : ℚ)
            = (k : ℚ) * (2 : ℚ) ^ (Int.log 2 |(-1 * (jitter : ℚ))| - 52) := by
          have hx : float64 (-(-1 * (jitter : ℚ))) = -(-1 * (jitter : ℚ)) := by
            have : -(-1 * (jitter : ℚ)) = (jitter : ℚ) := by ring
            rw [this]
            exact float64_intCast jitter (by omega) h53
          have hne : (-(-1 * (jitter : ℚ))) ≠ 0 := by
            have : (1 : ℚ) ≤ (jitter : ℚ) := by exact_mod_cast h1
            intro h0
            linarith
          unfold float64 at hx
          simp only [hne, if_false, abs_neg] at hx
          refine ⟨-roundHalfEven (-(-1 * (jitter : ℚ))
            / (2 : ℚ) ^ (Int.log 2 |(-1 * (jitter : ℚ))| - 52)), ?_⟩
          push_cast
          rw [neg_mul, hx]
          ring
        exact float64_le_of_grid _ _ k hk (by rw [e])
      have heq : float64 (-1 * (jitter : ℚ)) = ((-jitter : Int) : ℚ) := le_antisymm hle hge
      rw [heq, Int.floor_intCast]
    · intro hun
      have hs : (delay r delayTime jitter).sleepMs
          = wrapInt64 (delayTime + (delay r delayTime jitter).jitter) := rfl
      rw [hs]
      unfold wrapInt64
      omega
  · simp only [delay, int_math_Floor]
    norm_num [float64_zero]

/-- Witness for C10: `jitter = 10`, `delayTime = 100` and a float64 draw with offset 7. -/
theorem delay_jitter_offset_range_witness :
    float64 (7656119366529843 / 9007199254740992) = 7656119366529843 / 9007199254740992 ∧
      (0 : ℚ) ≤ 7656119366529843 / 9007199254740992 ∧
      (7656119366529843 / 9007199254740992 : ℚ) < 1 ∧
      (1 : Int) ≤ 10 ∧ (10 : Int) ≤ 9007199254740992 ∧
      (delay (7656119366529843 / 9007199254740992) 100 10).jitter = 7 ∧
      (delay (7656119366529843 / 9007199254740992) 100 10).jitter ≤ 10 - 1 ∧
      (delay (7656119366529843 / 9007199254740992) 100 10).jitter ≠ 10 ∧
      (delay 0 100 10).jitter = -10 :=
  have h := (delay_jitter_offset_range 100 10 (7656119366529843 / 9007199254740992)
    float64_draw_example (by norm_num) (by norm_num)).2.1 (by decide) (by decide)
  ⟨float64_draw_example, by norm_num, by norm_num, by decide, by decide,
    by rw [delay_at_100_10], h.2.1, h.2.2.1, h.2.2.2.1⟩

/-- For loads within the 64-bit range the loop bound of `ioStress` is the exact product. -/
theorem wrapInt64_of_range (x : Int) (h0 : -9223372036854775808 ≤ x)
    (h1 : x < 9223372036854775808) : wrapInt64 x = x := by
  unfold wrapInt64
  omega

/-- C4, as stated, fails: at `cpuLoad = 2^48` the product `cpuOpsBase * cpuLoad` wraps to
`-2^63`, the loop body never runs and no square root is taken. -/
theorem cpuStress_wraps :
    (0 : Int) ≤ 281474976710656 ∧
    (cpuStress (fun _ => 0) 281474976710656).sqrtArgs.length = 0 ∧
    (cpuStress (fun _ => 0) 281474976710656).loggedTotal = -9223372036854775808 ∧
    ((cpuStress (fun _ => 0) 281474976710656).sqrtArgs.length : Int)
      ≠ 32768 * 281474976710656 := by
  have hl : (cpuStress (fun _ => 0) 281474976710656).sqrtArgs.length = 0 := by
    rw [cpuStress_length]
    decide
  refine ⟨by decide, hl, ?_, ?_⟩
  · show wrapInt64 (cpuOpsBase * 281474976710656) = -9223372036854775808
    decide
  · rw [hl]
    decide

/-- C4, amended: for `0 ≤ cpuLoad < 2^48` (so that `32768 * cpuLoad` fits the 64-bit
`int`), `cpuStress` takes exactly `32768 * cpuLoad` square roots (one per loop
iteration), whatever random values are drawn. -/
theorem cpuStress_sqrt_count (cpuLoad : Int) (h : 0 ≤ cpuLoad)
    (hb : cpuLoad < 281474976710656) (rng rng' : Nat → ℚ) :
    ((cpuStress rng cpuLoad).sqrtArgs.length : Int) = 32768 * cpuLoad ∧
      (cpuStress rng' cpuLoad).sqrtArgs.length = (cpuStress rng cpuLoad).sqrtArgs.length ∧
      (cpuStress rng cpuLoad).loggedTotal = 32768 * cpuLoad := by
  have hw : wrapInt64 (cpuOpsBase * cpuLoad) = 32768 * cpuLoad := by
    rw [wrapInt64_of_range] <;> simp only [cpuOpsBase] <;> omega
  refine ⟨?_, by rw [cpuStress_length, cpuStress_length], ?_⟩
  · rw [cpuStress_length, hw]
    omega
  · show wrapInt64 (cpuOpsBase * cpuLoad) = 32768 * cpuLoad
    exact hw

/-- Witness for C4: `cpuLoad = 3` gives `98304` square roots for two different random
sources. -/
theorem cpuStress_sqrt_count_witness :
    (0 : Int) ≤ 3 ∧ (3 : Int) < 281474976710656 ∧
      ((cpuStress (fun _ => 0) 3).sqrtArgs.length : Int) = 32768 * 3 ∧
      (cpuStress (fun k => 1 / (k + 2)) 3).sqrtArgs.length
        = (cpuStress (fun _ => 0) 3).sqrtArgs.length :=
  have h := cpuStress_sqrt_count 3 (by decide) (by decide) (fun _ => 0) (fun k => 1 / (k + 2))
  ⟨by decide, by decide, h.1, h.2.1⟩

/-- C5, as stated, fails: at `ioLoad = 2^58 + 1` the loop bound `ioOpsBase * ioLoad` wraps
to 64, so a run without failure writes 64 chunks and 65536 bytes, not `64 * ioLoad`
chunks; and at `ioLoad = 2^47` the counter `totalBytes` itself wraps to `-2^63`. -/
theorem ioStress_total_bytes_wraps :
    (∃ r, ioStress noFail 7 288230376151711745 = Except.ok r ∧
      writtenChunks r.final.trace = List.replicate 64 1024 ∧
      r.final.totalBytes = 65536 ∧
      ((writtenChunks r.final.trace).length : Int) ≠ 64 * 288230376151711745 ∧
      r.final.totalBytes ≠ 64 * 288230376151711745 * 1024) ∧
    (∃ r, ioStress noFail 7 140737488355328 = Except.ok r ∧
      r.final.totalBytes = -9223372036854775808 ∧
      r.final.totalBytes ≠ 64 * 140737488355328 * 1024) := by
  constructor
  · obtain ⟨r, hr⟩ := ioStress_noFail 7 288230376151711745
    obtain ⟨ht, htr, _⟩ := ioStress_eq_ok noFail 7 288230376151711745 r hr
    have hN : (wrapInt64 (ioOpsBase * 288230376151711745)).toNat = 64 := by decide
    rw [hN] at ht htr
    have hw : writtenChunks r.final.trace = List.replicate 64 1024 := by
      rw [htr]
      simp [writtenChunks, writtenChunks_append, writtenChunks_loopTraceSpec]
    have ht' : r.final.totalBytes = 65536 := by
      rw [ht]
      decide
    refine ⟨r, hr, hw, ht', ?_, ?_⟩
    · rw [hw, List.length_replicate]
      decide
    · rw [ht']
      decide
  · obtain ⟨r, hr⟩ := ioStress_noFail 7 140737488355328
    obtain ⟨ht, _, _⟩ := ioStress_eq_ok noFail 7 140737488355328 r hr
    have ht' : r.final.totalBytes = -9223372036854775808 := by
      rw [ht]
      decide
    refine ⟨r, hr, ht', ?_⟩
    rw [ht']
    decide

/-- C5, amended: for `0 ≤ ioLoad < 2^57` (so that `64 * ioLoad` fits the 64-bit `int`),
`ioStress` without file-system failure runs to its end, and every run that ends without
panic has written exactly `64 * ioLoad` chunks of 1024 bytes each; for `ioLoad < 2^47`
(so that the byte total fits too) `totalBytes = 64 * ioLoad * 1024`. -/
theorem ioStress_total_bytes (fileId : Nat) (ioLoad : Int) (h : 0 ≤ ioLoad)
    (hb : ioLoad < 144115188075855872) :
    (∃ r, ioStress noFail fileId ioLoad = Except.ok r) ∧
      ∀ (env : IoEnv) (r : IoResult), ioStress env fileId ioLoad = Except.ok r →
        writtenChunks r.final.trace = List.replicate (64 * ioLoad).toNat 1024 ∧
        ((writtenChunks r.final.trace).length : Int) = 64 * ioLoad ∧
        (ioLoad < 140737488355328 → r.final.totalBytes = 64 * ioLoad * 1024) := by
  refine ⟨ioStress_noFail fileId ioLoad, ?_⟩
  intro env r hr
  obtain ⟨ht, htr, _⟩ := ioStress_eq_ok env fileId ioLoad r hr
  have hN : wrapInt64 (ioOpsBase * ioLoad) = 64 * ioLoad := by
    rw [wrapInt64_of_range] <;> simp only [ioOpsBase] <;> omega
  rw [hN] at ht htr
  have hw : writtenChunks r.final.trace = List.replicate (64 * ioLoad).toNat 1024 := by
    rw [htr]
    simp [writtenChunks, writtenChunks_append, writtenChunks_loopTraceSpec]
  refine ⟨hw, ?_, ?_⟩
  · rw [hw, List.length_replicate]
    omega
  · intro h47
    rw [ht, wrapInt64_of_range] <;> omega

/-- Witness for C5: `ioLoad = 2`. -/
theorem ioStress_total_bytes_witness :
    (0 : Int) ≤ 2 ∧ (2 : Int) < 144115188075855872 ∧ (2 : Int) < 140737488355328 ∧
      (∃ r, ioStress noFail 7 2 = Except.ok r) ∧
      ∀ (env : IoEnv) (r : IoResult), ioStress env 7 2 = Except.ok r →
        ((writtenChunks r.final.trace).length : Int) = 64 * 2 ∧
        r.final.totalBytes = 64 * 2 * 1024 :=
  have h := ioStress_total_bytes 7 2 (by decide) (by decide)
  ⟨by decide, by decide, by decide, h.1,
    fun env r hr => ⟨(h.2 env r hr).2.1, (h.2 env r hr).2.2 (by decide)⟩⟩

/-- C6, as stated, fails: at `ioLoad = 2^58 + 1` the loop bound wraps to 64, so a run
without failure does 64 writes and no flush inside the loop, not `floor(ioLoad / 8)`. -/
theorem ioStress_flush_schedule_wraps :
    ∃ r, ioStress noFail 7 288230376151711745 = Except.ok r ∧
      r.final.trace = IoEvent.create (tmpName 7) :: loopTraceSpec 64 ++
        [IoEvent.flush, IoEvent.sync, IoEvent.close, IoEvent.remove (tmpName 7)] ∧
      (loopTraceSpec 64).count IoEvent.flush = 0 ∧
      (((loopTraceSpec 64).count IoEvent.flush : Nat) : Int) ≠ 288230376151711745 / 8 := by
  obtain ⟨r, hr⟩ := ioStress_noFail 7 288230376151711745
  obtain ⟨_, htr, _⟩ := ioStress_eq_ok noFail 7 288230376151711745 r hr
  have hN : (wrapInt64 (ioOpsBase * 288230376151711745)).toNat = 64 := by decide
  rw [hN] at htr
  have hc : (loopTraceSpec 64).count IoEvent.flush = 0 := by
    rw [(count_flush_loopTraceSpec 64).1]
  refine ⟨r, hr, htr, hc, ?_⟩
  rw [hc]
  decide

/-- C6, amended: for `0 ≤ ioLoad < 2^57` (so that `64 * ioLoad` fits the 64-bit `int`), a
run of `ioStress` that ends without panic (there is one when nothing fails) has done
exactly these file operations: create, then per loop iteration one write followed by
flush+sync exactly when the bytes written so far are a positive multiple of 524288,
then the final flush+sync, close and remove. The loop holds `floor(ioLoad / 8)` flushes
and as many syncs. After every loop iteration `currentBytes` is below 524288 and is the
non-negative remainder of `totalBytes` modulo 524288. -/
theorem ioStress_flush_schedule (fileId : Nat) (ioLoad : Int) (h : 0 ≤ ioLoad)
    (hb : ioLoad < 144115188075855872) :
    (∃ r, ioStress noFail fileId ioLoad = Except.ok r) ∧
    (∀ (env : IoEnv) (r : IoResult), ioStress env fileId ioLoad = Except.ok r →
      r.final.trace = IoEvent.create (tmpName fileId) ::
        loopTraceSpec (64 * ioLoad).toNat ++
          [IoEvent.flush, IoEvent.sync, IoEvent.close, IoEvent.remove (tmpName fileId)]) ∧
    ((loopTraceSpec (64 * ioLoad).toNat).count IoEvent.flush : Int) = ioLoad / 8 ∧
    ((loopTraceSpec (64 * ioLoad).toNat).count IoEvent.sync : Int) = ioLoad / 8 ∧
    (∀ (env : IoEnv) (k : Int) (s : IoState), 0 ≤ k → k ≤ ioOpsBase * ioLoad →
      forLoopE k (ioBody env) 0 (ioInit (tmpName fileId)) = Except.ok s →
        s.totalBytes = wrapInt64 (1024 * k) ∧
        (k < 9007199254740992 → s.totalBytes = 1024 * k) ∧
        0 ≤ s.currentBytes ∧ s.currentBytes < 524288 ∧
        s.currentBytes = s.totalBytes % 524288 ∧
        forLoopE (wrapInt64 (ioOpsBase * ioLoad)) (ioBody env) k s
          = forLoopE (wrapInt64 (ioOpsBase * ioLoad)) (ioBody env) 0
              (ioInit (tmpName fileId))) := by
  have hN : wrapInt64 (ioOpsBase * ioLoad) = 64 * ioLoad := by
    rw [wrapInt64_of_range] <;> simp only [ioOpsBase] <;> omega
  obtain ⟨cf, cs⟩ := count_flush_loopTraceSpec (64 * ioLoad).toNat
  refine ⟨ioStress_noFail fileId ioLoad, ?_, by rw [cf]; omega, by rw [cs]; omega, ?_⟩
  · intro env r hr
    have := (ioStress_eq_ok env fileId ioLoad r hr).2.1
    rw [hN] at this
    exact this
  · intro env k s hk0 hk hrun
    have e := forLoopE_eq_ok k (ioBody env) ioStep (ioBody_eq_ok env) k.toNat 0
      (ioInit (tmpName fileId)) s (by simp) hrun
    obtain ⟨t1, t2, _⟩ := ioStep_iterate (tmpName fileId) k.toNat
    rw [← e] at t1 t2
    have hkk : ((k.toNat : Nat) : Int) = k := Int.toNat_of_nonneg hk0
    rw [hkk] at t1 t2
    have hk' : k ≤ wrapInt64 (ioOpsBase * ioLoad) := by
      rw [hN]
      simpa [ioOpsBase] using hk
    refine ⟨t1, ?_, by omega, by omega, ?_, ?_⟩
    · intro hk53
      rw [t1, wrapInt64_of_range] <;> omega
    · rw [t1, t2]
      unfold wrapInt64
      omega
    · exact forLoopE_prefix (wrapInt64 (ioOpsBase * ioLoad)) k (ioBody env) hk' k.toNat 0 _ s
        (by simp) hk0 hrun

/-- Witness for C6: `ioLoad = 17` has `2` flushes inside the loop. -/
theorem ioStress_flush_schedule_witness :
    (0 : Int) ≤ 17 ∧ (17 : Int) < 144115188075855872 ∧
      (∃ r, ioStress noFail 7 17 = Except.ok r) ∧
      ((loopTraceSpec (64 * (17 : Int)).toNat).count IoEvent.flush : Int) = 17 / 8 :=
  have h := ioStress_flush_schedule 7 17 (by decide) (by decide)
  ⟨by decide, by decide, h.1, h.2.2.1⟩

/-- C9, as stated, fails: at `ioLoad = 2^58 + 1` the loop bound wraps to 64, so the logged
"total bytes written" is 65536 and equals the logged "bytes to write" although
`ioLoad ≠ 1`; and at `ioLoad = 2^47` the logged total is `-2^63`, not
`64 * ioLoad * 1024`. -/
theorem ioStress_logged_bytes_wraps :
    (∃ r, ioStress noFail 7 288230376151711745 = Except.ok r ∧
      r.log.bytesToWrite = 65536 ∧ r.log.totalBytesWritten = 65536 ∧
      r.log.bytesToWrite = r.log.totalBytesWritten ∧
      (288230376151711745 : Int) ≠ 1) ∧
    (∃ r, ioStress noFail 7 140737488355328 = Except.ok r ∧
      r.log.totalBytesWritten = -9223372036854775808 ∧
      r.log.totalBytesWritten ≠ 64 * 140737488355328 * 1024) := by
  constructor
  · obtain ⟨r, hr⟩ := ioStress_noFail 7 288230376151711745
    obtain ⟨_, _, hl⟩ := ioStress_eq_ok noFail 7 288230376151711745 r hr
    refine ⟨r, hr, ?_⟩
    rw [hl]
    decide
  · obtain ⟨r, hr⟩ := ioStress_noFail 7 140737488355328
    obtain ⟨_, _, hl⟩ := ioStress_eq_ok noFail 7 140737488355328 r hr
    refine ⟨r, hr, ?_⟩
    rw [hl]
    decide

/-- C9, amended: the "bytes to write" figure logged by `ioStress` is the constant
`ioOpsBase * 8 * 128 = 65536` whatever `ioLoad` is; for `0 ≤ ioLoad < 2^47` (so that
the byte total fits the 64-bit `int`) the logged "total bytes written" is
`64 * ioLoad * 1024`, and the two figures are equal exactly when `ioLoad = 1`. -/
theorem ioStress_logged_bytes (fileId : Nat) (ioLoad : Int) (h : 0 ≤ ioLoad) :
    (∃ r, ioStress noFail fileId ioLoad = Except.ok r) ∧
      ∀ (env : IoEnv) (r : IoResult), ioStress env fileId ioLoad = Except.ok r →
        r.log.ioLoad = ioLoad ∧
        r.log.bytesToWrite = ioOpsBase * 8 * 128 ∧
        r.log.bytesToWrite = 65536 ∧
        r.log.totalBytesWritten = r.final.totalBytes ∧
        (ioLoad < 140737488355328 →
          r.log.totalBytesWritten = 64 * ioLoad * 1024 ∧
          (r.log.bytesToWrite = r.log.totalBytesWritten ↔ ioLoad = 1)) := by
  refine ⟨ioStress_noFail fileId ioLoad, ?_⟩
  intro env r hr
  obtain ⟨ht, _, hl⟩ := ioStress_eq_ok env fileId ioLoad r hr
  rw [hl, ht]
  refine ⟨rfl, rfl, by show ioOpsBase * 8 * 128 = 65536; decide, rfl, ?_⟩
  intro h47
  have hN : wrapInt64 (ioOpsBase * ioLoad) = 64 * ioLoad := by
    rw [wrapInt64_of_range] <;> simp only [ioOpsBase] <;> omega
  have hT : wrapInt64 (1024 * ((wrapInt64 (ioOpsBase * ioLoad)).toNat : Int))
      = 64 * ioLoad * 1024 := by
    rw [hN, wrapInt64_of_range] <;> omega
  show wrapInt64 (1024 * ((wrapInt64 (ioOpsBase * ioLoad)).toNat : Int)) = 64 * ioLoad * 1024 ∧
    (ioOpsBase * 8 * 128 = wrapInt64 (1024 * ((wrapInt64 (ioOpsBase * ioLoad)).toNat : Int))
      ↔ ioLoad = 1)
  rw [hT]
  simp only [ioOpsBase]
  refine ⟨trivial, ?_⟩
  constructor
  · intro e
    omega
  · intro e
    subst e
    decide

/-- Witness for C9: with `ioLoad = 3` the two logged figures differ. -/
theorem ioStress_logged_bytes_witness :
    (0 : Int) ≤ 3 ∧ (3 : Int) < 140737488355328 ∧
      (∃ r, ioStress noFail 7 3 = Except.ok r) ∧
      ∀ (env : IoEnv) (r : IoResult), ioStress env 7 3 = Except.ok r →
        r.log.bytesToWrite = 65536 ∧ r.log.totalBytesWritten = 64 * 3 * 1024 :=
  have h := ioStress_logged_bytes 7 3 (by decide)
  ⟨by decide, by decide, h.1,
    fun env r hr => ⟨(h.2 env r hr).2.2.1, ((h.2 env r hr).2.2.2.2 (by decide)).1⟩⟩

/-- C7: the slab of `allocMemory(size)` has `size * 262144` elements of 8 bytes, which
is `size * 2097152` bytes, two megabytes per unit; for `size = 1` it occupies 2097152
bytes and not the 1048576 bytes of one megabyte. -/
theorem allocMemory_bytes_per_unit :
    (∀ size : Int, (allocMemory size).len = size * 262144 ∧
      (allocMemory size).cap = size * 262144 ∧
      (allocMemory size).bytes = size * 2097152 ∧
      (allocMemory size).bytes = 2 * (size * bytesPerMB)) ∧
    (allocMemory 1).bytes = 2097152 ∧
    (allocMemory 1).bytes ≠ 1 * bytesPerMB := by
  refine ⟨?_, by decide, by decide⟩
  intro size
  simp only [allocMemory, Slab.bytes, memoryCountBase, int64Bytes, bytesPerMB]
  refine ⟨by norm_num, by norm_num, by ring, by ring⟩

/-! ## Facts about traces -/

theorem time_Now_trace (w : World) : (time_Now w).2.trace = w.trace := by
  unfold time_Now
  split <;> rfl

theorem counterValue_append (c : Handle) (a b : List Event) :
    counterValue c (a ++ b) = counterValue c a + counterValue c b := by
  induction a with
  | nil => simp [counterValue]
  | cons e rest ih => cases e <;> simp [counterValue, ih, add_assoc]

theorem observations_append (h : Handle) (a b : List Event) :
    observations h (a ++ b) = observations h a ++ observations h b := by
  induction a with
  | nil => simp [observations]
  | cons e rest ih =>
    cases e with
    | observe h' v =>
      simp only [observations, List.cons_append]
      split <;> simp [ih]
    | _ => simpa [observations] using ih

theorem callCount_append (a b : List Event) :
    callCount (a ++ b) = callCount a + callCount b := by
  induction a with
  | nil => simp [callCount]
  | cons e rest ih =>
    cases e <;> simp [callCount, ih]
    omega

/-- The deferred closure appends its three effects, in this order, and nothing else. -/
theorem instrmw_deferred_trace (rc rl lg : Handle) (begin : Int) (w : World) :
    ∃ (secs : ℚ) (dur : Int), (instrmw_deferred rc rl lg begin w).trace =
      w.trace ++ [Event.counterAdd rc 1, Event.observe rl secs,
        Event.log lg [LogValue.text "request_latency:", LogValue.duration dur]] := by
  refine ⟨seconds ((time_Now (emit (Event.counterAdd rc 1) w)).1 - begin),
    (time_Now (emit (Event.observe rl
      (seconds ((time_Now (emit (Event.counterAdd rc 1) w)).1 - begin)))
        (time_Now (emit (Event.counterAdd rc 1) w)).2)).1 - begin, ?_⟩
  simp [instrmw_deferred, emit, time_Now_trace]

theorem logmw_Execute_trace (lg : Handle) (next : World → Outcome × World) (w : World) :
    (logmw_Execute lg next w).1 = (next (time_Now w).2).1 ∧
    ∃ dur : Int, (logmw_Execute lg next w).2.trace = (next (time_Now w).2).2.trace ++
      [Event.log lg [LogValue.text "method", LogValue.text "Execute",
        LogValue.text "took", LogValue.duration dur]] := by
  refine ⟨rfl, (time_Now (next (time_Now w).2).2).1 - (time_Now w).1, ?_⟩
  simp [logmw_Execute, emit, time_Now_trace]

/-- C1: whatever service is wrapped and however its `Execute` ends, one `Execute` of the
instrumenting decorator adds, after the effects of the inner call, exactly one
`Add(1)` on the request counter, one latency observation and one log line: the
counter is 1 higher and the histogram holds one more observation than when the inner
call returned. -/
theorem instrmw_Execute_counts_once (rc rl lg : Handle) (next : BaseService) (w : World) :
    (∃ (secs : ℚ) (dur : Int),
      ((BaseService.instrmw rc rl lg next).Execute w).2.trace =
        (next.Execute (time_Now w).2).2.trace ++
          [Event.counterAdd rc 1, Event.observe rl secs,
            Event.log lg [LogValue.text "request_latency:", LogValue.duration dur]]) ∧
    counterValue rc ((BaseService.instrmw rc rl lg next).Execute w).2.trace =
      counterValue rc (next.Execute (time_Now w).2).2.trace + 1 ∧
    (observations rl ((BaseService.instrmw rc rl lg next).Execute w).2.trace).length =
      (observations rl (next.Execute (time_Now w).2).2.trace).length + 1 := by
  obtain ⟨secs, dur, ht⟩ :=
    instrmw_deferred_trace rc rl lg (time_Now w).1 (next.Execute (time_Now w).2).2
  have hx : ((BaseService.instrmw rc rl lg next).Execute w).2 =
      instrmw_deferred rc rl lg (time_Now w).1 (next.Execute (time_Now w).2).2 := rfl
  rw [hx, ht]
  refine ⟨⟨secs, dur, rfl⟩, ?_, ?_⟩
  · rw [counterValue_append]
    simp [counterValue]
  · rw [observations_append]
    simp [observations]

/-- C2: the instrumenting decorator hands on the outcome of the wrapped `Execute`
unchanged (the returned text and error, or the panic), and it runs the wrapped
`Execute` exactly once: if every run of the wrapped service makes `n` downstream calls,
one run of the decorator makes exactly `n`. -/
theorem instrmw_Execute_passthrough (rc rl lg : Handle) (next : BaseService) (w : World) :
    ((BaseService.instrmw rc rl lg next).Execute w).1 = (next.Execute (time_Now w).2).1 ∧
    (∀ n : Nat,
      (∀ w' : World, callCount (next.Execute w').2.trace = callCount w'.trace + n) →
      callCount ((BaseService.instrmw rc rl lg next).Execute w).2.trace
        = callCount w.trace + n) := by
  refine ⟨rfl, ?_⟩
  intro n hn
  obtain ⟨secs, dur, ht⟩ :=
    instrmw_deferred_trace rc rl lg (time_Now w).1 (next.Execute (time_Now w).2).2
  have hx : ((BaseService.instrmw rc rl lg next).Execute w).2 =
      instrmw_deferred rc rl lg (time_Now w).1 (next.Execute (time_Now w).2).2 := rfl
  rw [hx, ht, callCount_append, hn, time_Now_trace]
  simp [callCount]

theorem sampleCore_calls (w' : World) :
    callCount ((BaseService.baseService sampleCore).Execute w').2.trace
      = callCount w'.trace + 1 := by
  simp [BaseService.Execute, sampleCore, emit, callCount_append, callCount]

/-- Witness for C2: wrapped around a core that makes one downstream call per run, the
decorator makes exactly one. -/
theorem instrmw_Execute_passthrough_witness :
    (∀ w' : World, callCount ((BaseService.baseService sampleCore).Execute w').2.trace
        = callCount w'.trace + 1) ∧
      callCount ((BaseService.instrmw 1 2 0 (BaseService.baseService sampleCore)).Execute
        sampleWorld).2.trace = callCount sampleWorld.trace + 1 :=
  ⟨sampleCore_calls,
    (instrmw_Execute_passthrough 1 2 0 (BaseService.baseService sampleCore) sampleWorld).2 1
      sampleCore_calls⟩

/-- C8, as stated, fails: in the pipeline assembled by `main` the outermost layer is not
the Logging decorator, and a request does not leave the effects of the pipeline with
Logging outside: the Logging line is written before the request counter is incremented,
not after. -/
theorem mainService_logging_not_outer :
    (mainService 0 1 2 sampleCore).layers
        ≠ [Layer.logging, Layer.instrumenting, Layer.serviceCore] ∧
      (specService 0 1 2 sampleCore).layers
        = [Layer.logging, Layer.instrumenting, Layer.serviceCore] ∧
      ((mainService 0 1 2 sampleCore).Execute sampleWorld).2.trace
        = [Event.call "a",
           Event.log 0 [LogValue.text "method", LogValue.text "Execute",
             LogValue.text "took", LogValue.duration 3],
           Event.counterAdd 1 1,
           Event.observe 2 (seconds 9),
           Event.log 0 [LogValue.text "request_latency:", LogValue.duration 14]] ∧
      ((mainService 0 1 2 sampleCore).Execute sampleWorld).2.trace
        ≠ ((specService 0 1 2 sampleCore).Execute sampleWorld).2.trace := by
  refine ⟨by decide, by decide, ?_, ?_⟩
  · simp [mainService, specService, loggingMiddleware, instrumentingMiddleware,
      BaseService.Execute, instrmw_Execute, logmw_Execute, instrmw_deferred, sampleCore,
      sampleWorld, emit, time_Now]
  · simp [mainService, specService, loggingMiddleware, instrumentingMiddleware,
      BaseService.Execute, instrmw_Execute, logmw_Execute, instrmw_deferred, sampleCore,
      sampleWorld, emit, time_Now]

/-- C8, amended: in the pipeline assembled by `main` the Instrumenting decorator is the
outer layer and the Logging decorator the inner one, wrapping the Service Core directly:
a request passes Instrumenting, then Logging, then `Execute` of the Service Core, and on
the way out the Logging line comes first, then the counter, the observation and the
latency line of Instrumenting. -/
theorem mainService_instrumenting_outer (lg rc lh : Handle)
    (core : World → Outcome × World) (w : World) :
    (mainService lg rc lh core).layers
        = [Layer.instrumenting, Layer.logging, Layer.serviceCore] ∧
      mainService lg rc lh core
        = BaseService.instrmw rc lh lg (BaseService.logmw lg (BaseService.baseService core)) ∧
      ((mainService lg rc lh core).Execute w).1
        = (core (time_Now (time_Now w).2).2).1 ∧
      ∃ (took : Int) (secs : ℚ) (dur : Int),
        ((mainService lg rc lh core).Execute w).2.trace
          = (core (time_Now (time_Now w).2).2).2.trace ++
            [Event.log lg [LogValue.text "method", LogValue.text "Execute",
               LogValue.text "took", LogValue.duration took],
             Event.counterAdd rc 1,
             Event.observe lh secs,
             Event.log lg [LogValue.text "request_latency:", LogValue.duration dur]] := by
  refine ⟨rfl, rfl, rfl, ?_⟩
  obtain ⟨_, took, hl⟩ := logmw_Execute_trace lg core (time_Now w).2
  obtain ⟨secs, dur, hd⟩ :=
    instrmw_deferred_trace rc lh lg (time_Now w).1 (logmw_Execute lg core (time_Now w).2).2
  have hx : ((mainService lg rc lh core).Execute w).2 =
      instrmw_deferred rc lh lg (time_Now w).1 (logmw_Execute lg core (time_Now w).2).2 := rfl
  refine ⟨took, secs, dur, ?_⟩
  rw [hx, hd, hl]
  simp

end Vecro
